import Mathlib

/-!
Shallow embedding of the statistics and trend-analysis utilities of
`src/app/utils/router.ts` (the trend analysis engine of the repository).

JavaScript numbers are modelled as exact rationals (ℚ).  `Math.sqrt` is not
algebraic over ℚ, so it is passed in as an explicit parameter `sqrtFn`;
every claim below depends on the square root only through the value the
code itself computes with it (in particular through whether it is zero), so
theorems either hold for every `sqrtFn` or take the zero-preservation
property of the real square root as an explicit hypothesis.
-/

namespace Router

/-- Embedding of `clamp` (router.ts lines 82-86). -/
def clamp (value minValue maxValue : ℚ) : ℚ :=
  if value < minValue then minValue
  else if maxValue < value then maxValue
  else value

/-- Embedding of `quantile` (router.ts lines 115-138): linear interpolation
between closest ranks on an ascending-sorted array. -/
def quantile (sortedValues : List ℚ) (quantileValue : ℚ) : ℚ :=
  let length := sortedValues.length
  if length = 0 then 0
  else if quantileValue ≤ 0 then sortedValues.headD 0
  else if 1 ≤ quantileValue then (sortedValues.getLast?).getD 0
  else
    let position := ((length : ℚ) - 1) * quantileValue
    let lowerIndex := (⌊position⌋).toNat
    let upperIndex := (⌈position⌉).toNat
    let weight := position - (⌊position⌋ : ℚ)
    let lower := sortedValues.getD lowerIndex 0
    let upper := sortedValues.getD upperIndex 0
    lower + (upper - lower) * weight

/-- Embedding of `winsorize` (router.ts lines 159-168): clamp every value into
the quantile bounds computed from an ascending-sorted copy. -/
def winsorize (values : List ℚ) (lowerQuantile upperQuantile : ℚ) : List ℚ :=
  let sorted := values.insertionSort (fun a b => a ≤ b)
  let lowerBound := quantile sorted lowerQuantile
  let upperBound := quantile sorted upperQuantile
  values.map (fun v => clamp v lowerBound upperBound)

/-- Embedding of the `sum` helper (router.ts lines 50-52). -/
def sumNumbers (numbers : List ℚ) : ℚ :=
  numbers.foldl (fun a b => a + b) 0

/-- Volatility classification labels of `LineChartAnalysis`. -/
inductive Volatility where
  | very_stable
  | moderate
  | volatile
  | undefined
deriving DecidableEq, Repr

/-- Trend classification labels of `LineChartAnalysis`. -/
inductive Trend where
  | strong
  | weak
  | none
  | undefined
deriving DecidableEq, Repr

/-- The `interpretation` field of `LineChartAnalysis`. -/
structure Interpretation where
  volatility : Volatility
  trend : Trend
deriving DecidableEq, Repr

/-- Embedding of the `LineChartAnalysis` result type (router.ts lines 170-180).
`Option ℚ` stands for `number | null`. -/
structure LineChartAnalysis where
  mean : ℚ
  standardDeviation : ℚ
  coefficientOfVariation : Option ℚ
  slope : ℚ
  rSquared : Option ℚ
  interpretation : Interpretation
deriving DecidableEq, Repr

/-- The `indexedValues` array built at router.ts lines 219-225: non-missing
values paired with their original 0-based indices. -/
def indexedValues (values : List (Option ℚ)) : List (ℚ × ℕ) :=
  (values.enum).filterMap (fun p => (p.2).map (fun v => (v, p.1)))

/-- The valid-observation count `n` (router.ts line 227). -/
def nValid (values : List (Option ℚ)) : ℕ :=
  (indexedValues values).length

/-- The running total `_sum` (router.ts lines 258-261). -/
def sumValues (values : List (Option ℚ)) : ℚ :=
  ((indexedValues values).map Prod.fst).sum

/-- The `mean` (router.ts line 262); only reached by the code when n ≥ 2. -/
def meanValue (values : List (Option ℚ)) : ℚ :=
  sumValues values / (nValid values : ℚ)

/-- The `varianceSum` accumulator (router.ts lines 264-268). -/
def varianceSum (values : List (Option ℚ)) : ℚ :=
  ((indexedValues values).map
    (fun e => (e.1 - meanValue values) * (e.1 - meanValue values))).sum

/-- The `standardDeviation` (router.ts line 269), with `Math.sqrt` abstracted
as `sqrtFn`. -/
def standardDeviation (sqrtFn : ℚ → ℚ) (values : List (Option ℚ)) : ℚ :=
  sqrtFn (varianceSum values / (nValid values : ℚ))

/-- The `coefficientOfVariation` (router.ts line 271). -/
def coefficientOfVariationValue (sqrtFn : ℚ → ℚ) (values : List (Option ℚ)) :
    Option ℚ :=
  if meanValue values = 0 then Option.none
  else Option.some (standardDeviation sqrtFn values / meanValue values)

/-- The `originalYValues` array (router.ts lines 273-276). -/
def originalYValues (values : List (Option ℚ)) : List ℚ :=
  (indexedValues values).map Prod.fst

/-- The `winsorizedYValues` array (router.ts lines 288-289): 5th-95th
percentile winsorization exactly when at least 20 observations are present. -/
def winsorizedYValues (values : List (Option ℚ)) : List ℚ :=
  if 20 ≤ (originalYValues values).length
  then winsorize (originalYValues values) (1/20) (19/20)
  else originalYValues values

/-- The (x, y) pairs the regression loop iterates over (router.ts lines
296-308): x is the preserved original index, y the (possibly winsorized)
value at the same position. -/
def regressionPoints (values : List (Option ℚ)) : List (ℚ × ℚ) :=
  ((indexedValues values).zip (winsorizedYValues values)).map
    (fun p => ((p.1.2 : ℚ), p.2))

/-- The accumulator `sumX` (router.ts line 304). -/
def sumX (values : List (Option ℚ)) : ℚ :=
  ((regressionPoints values).map Prod.fst).sum

/-- The accumulator `sumY` (router.ts line 305). -/
def sumY (values : List (Option ℚ)) : ℚ :=
  ((regressionPoints values).map Prod.snd).sum

/-- The accumulator `sumXY` (router.ts line 306). -/
def sumXY (values : List (Option ℚ)) : ℚ :=
  ((regressionPoints values).map (fun p => p.1 * p.2)).sum

/-- The accumulator `sumXX` (router.ts line 307). -/
def sumXX (values : List (Option ℚ)) : ℚ :=
  ((regressionPoints values).map (fun p => p.1 * p.1)).sum

/-- The regression `denominator` n·Σx² − (Σx)² (router.ts line 310). -/
def regressionDenominator (values : List (Option ℚ)) : ℚ :=
  (nValid values : ℚ) * sumXX values - sumX values * sumX values

/-- The regression `slope` (router.ts line 311), 0 when the denominator is 0. -/
def slopeValue (values : List (Option ℚ)) : ℚ :=
  if regressionDenominator values = 0 then 0
  else ((nValid values : ℚ) * sumXY values - sumX values * sumY values)
        / regressionDenominator values

/-- The `meanY` of the regression block (router.ts line 316). -/
def meanYValue (values : List (Option ℚ)) : ℚ :=
  sumY values / (nValid values : ℚ)

/-- The `intercept` of the regression block (router.ts line 317). -/
def interceptValue (values : List (Option ℚ)) : ℚ :=
  (sumY values - slopeValue values * sumX values) / (nValid values : ℚ)

/-- The total sum-of-squares `ssTotal` about the mean of the (possibly
winsorized) y-values (router.ts lines 319-328). -/
def ssTotal (values : List (Option ℚ)) : ℚ :=
  ((regressionPoints values).map
    (fun p => (p.2 - meanYValue values) * (p.2 - meanYValue values))).sum

/-- The residual sum-of-squares `ssResidual` against the fitted line
(router.ts lines 329-332). -/
def ssResidual (values : List (Option ℚ)) : ℚ :=
  ((regressionPoints values).map
    (fun p =>
      (p.2 - (slopeValue values * p.1 + interceptValue values)) *
      (p.2 - (slopeValue values * p.1 + interceptValue values)))).sum

/-- The `rSquared` value (router.ts lines 313-337): null until the
denominator check passes, and null again when `ssTotal` is 0. -/
def rSquaredValue (values : List (Option ℚ)) : Option ℚ :=
  if regressionDenominator values = 0 then Option.none
  else if ssTotal values = 0 then Option.none
  else Option.some (1 - ssResidual values / ssTotal values)

/-- The `volatility` classification (router.ts lines 339-345). -/
def volatilityOf (sqrtFn : ℚ → ℚ) (values : List (Option ℚ)) : Volatility :=
  match coefficientOfVariationValue sqrtFn values with
  | Option.none => Volatility.undefined
  | Option.some c =>
      if c < 1/10 then Volatility.very_stable
      else if c < 1/4 then Volatility.moderate
      else Volatility.volatile

/-- The `robustMeanY` (router.ts lines 347-350): mean of the (possibly
winsorized) y-values, 0 when there are none. -/
def robustMeanY (values : List (Option ℚ)) : ℚ :=
  if 0 < (winsorizedYValues values).length
  then sumNumbers (winsorizedYValues values) / ((winsorizedYValues values).length : ℚ)
  else 0

/-- The `relativeSlope` (router.ts line 351). -/
def relativeSlope (values : List (Option ℚ)) : ℚ :=
  if robustMeanY values = 0 then 0
  else |slopeValue values| / robustMeanY values

/-- The `trend` classification (router.ts lines 353-371). -/
def trendOf (sqrtFn : ℚ → ℚ) (values : List (Option ℚ)) : Trend :=
  if standardDeviation sqrtFn values = 0 then Trend.none
  else
    match rSquaredValue values with
    | Option.none => Trend.undefined
    | Option.some r =>
        let base :=
          if 3/4 < r then Trend.strong
          else if 2/5 < r then Trend.weak
          else Trend.none
        match base with
        | Trend.none => if 3/100 ≤ relativeSlope values then Trend.weak else Trend.none
        | Trend.weak => if 3/50 ≤ relativeSlope values then Trend.strong else Trend.weak
        | t => t

/-- Embedding of `computeLineChartAnalysis` (router.ts lines 218-455),
assembled from the intermediate definitions above.  The two early returns
mirror the n = 0 and n = 1 shortcuts of the source. -/
def computeLineChartAnalysis (sqrtFn : ℚ → ℚ) (values : List (Option ℚ)) :
    LineChartAnalysis :=
  if nValid values = 0 then
    { mean := 0
      standardDeviation := 0
      coefficientOfVariation := Option.none
      slope := 0
      rSquared := Option.none
      interpretation :=
        { volatility := Volatility.undefined, trend := Trend.undefined } }
  else if nValid values = 1 then
    { mean := ((indexedValues values).headD (0, 0)).1
      standardDeviation := 0
      coefficientOfVariation := Option.none
      slope := 0
      rSquared := Option.none
      interpretation :=
        { volatility := Volatility.very_stable, trend := Trend.none } }
  else
    { mean := meanValue values
      standardDeviation := standardDeviation sqrtFn values
      coefficientOfVariation := coefficientOfVariationValue sqrtFn values
      slope := slopeValue values
      rSquared := rSquaredValue values
      interpretation :=
        { volatility := volatilityOf sqrtFn values, trend := trendOf sqrtFn values } }

/-! ### Shared structural lemmas -/

lemma length_winsorize (v : List ℚ) (lq uq : ℚ) :
    (winsorize v lq uq).length = v.length := by
  simp [winsorize]

lemma length_originalYValues (values : List (Option ℚ)) :
    (originalYValues values).length = nValid values := by
  simp [originalYValues, nValid]

lemma length_winsorizedYValues (values : List (Option ℚ)) :
    (winsorizedYValues values).length = nValid values := by
  rw [winsorizedYValues]
  split
  · rw [length_winsorize, length_originalYValues]
  · exact length_originalYValues values

lemma length_regressionPoints (values : List (Option ℚ)) :
    (regressionPoints values).length = nValid values := by
  simp [regressionPoints, List.length_zip, length_winsorizedYValues, nValid]

lemma map_snd_regressionPoints (values : List (Option ℚ)) :
    (regressionPoints values).map Prod.snd = winsorizedYValues values := by
  unfold regressionPoints
  rw [List.map_map]
  have hc : (Prod.snd ∘ fun p : (ℚ × ℕ) × ℚ => ((p.1.2 : ℚ), p.2)) =
      (Prod.snd : (ℚ × ℕ) × ℚ → ℚ) := rfl
  rw [hc, List.map_snd_zip]
  rw [length_winsorizedYValues]
  exact le_of_eq rfl

lemma analysis_eq_of_two_le (sqrtFn : ℚ → ℚ) (values : List (Option ℚ))
    (hn : 2 ≤ nValid values) :
    computeLineChartAnalysis sqrtFn values =
      { mean := meanValue values
        standardDeviation := standardDeviation sqrtFn values
        coefficientOfVariation := coefficientOfVariationValue sqrtFn values
        slope := slopeValue values
        rSquared := rSquaredValue values
        interpretation :=
          { volatility := volatilityOf sqrtFn values
            trend := trendOf sqrtFn values } } := by
  unfold computeLineChartAnalysis
  rw [if_neg (by omega), if_neg (by omega)]

lemma indexedValues_eq_nil_of_all_none (values : List (Option ℚ))
    (h : ∀ v ∈ values, v = Option.none) : indexedValues values = [] := by
  unfold indexedValues
  rw [List.filterMap_eq_nil_iff]
  intro a ha
  have hmem : a.2 ∈ values := by
    have hmap := List.mem_map_of_mem Prod.snd ha
    rw [List.enum_map_snd] at hmap
    exact hmap
  rw [h a.2 hmem]
  rfl

lemma sum_map_mul_self_nonneg {α : Type} (l : List α) (g : α → ℚ) :
    0 ≤ (l.map (fun p => g p * g p)).sum := by
  apply List.sum_nonneg
  intro x hx
  rcases List.mem_map.mp hx with ⟨a, _, rfl⟩
  exact mul_self_nonneg (g a)

lemma eq_zero_of_sum_map_mul_self_zero {α : Type} (l : List α) (g : α → ℚ)
    (h : (l.map (fun p => g p * g p)).sum = 0) : ∀ a ∈ l, g a = 0 := by
  induction l with
  | nil => intro a ha; exact absurd ha (List.not_mem_nil a)
  | cons hd tl ih =>
    rw [List.map_cons, List.sum_cons] at h
    have h1 : 0 ≤ g hd * g hd := mul_self_nonneg _
    have h2 : 0 ≤ (tl.map (fun p => g p * g p)).sum := sum_map_mul_self_nonneg tl g
    have hhd : g hd * g hd = 0 := by linarith
    have htl : (tl.map (fun p => g p * g p)).sum = 0 := by linarith
    intro a ha
    rcases List.mem_cons.mp ha with rfl | hmem
    · exact mul_self_eq_zero.mp hhd
    · exact ih htl a hmem

lemma sum_affine_expand (p : List (ℚ × ℚ)) (A B : ℚ) :
    (p.map (fun q => (q.2 - (A * q.1 + B)) * (q.2 - (A * q.1 + B)))).sum =
      (p.map (fun q => q.2 * q.2)).sum
      + A * A * (p.map (fun q => q.1 * q.1)).sum
      + (p.length : ℚ) * (B * B)
      - 2 * A * (p.map (fun q => q.1 * q.2)).sum
      - 2 * B * (p.map (fun q => q.2)).sum
      + 2 * (A * B) * (p.map (fun q => q.1)).sum := by
  induction p with
  | nil => simp
  | cons hd tl ih =>
    simp only [List.map_cons, List.sum_cons, List.length_cons, ih]
    push_cast
    ring

lemma sq_sum_le_length_mul_sum_sq (l : List ℚ) :
    l.sum * l.sum ≤ (l.length : ℚ) * (l.map (fun x => x * x)).sum := by
  induction l with
  | nil => simp
  | cons a t ih =>
    simp only [List.sum_cons, List.map_cons, List.length_cons]
    push_cast
    have ht : 0 ≤ (t.map (fun x => x * x)).sum := by
      apply List.sum_nonneg
      intro x hx
      rcases List.mem_map.mp hx with ⟨y, _, rfl⟩
      exact mul_self_nonneg y
    rcases Nat.eq_zero_or_pos t.length with hk0 | hkpos
    · rw [List.length_eq_zero.mp hk0] at ih ⊢
      simp
    · set k : ℚ := (t.length : ℚ) with hk
      set s : ℚ := t.sum with hs
      set T : ℚ := (t.map (fun x => x * x)).sum with hT
      have hkq : (0 : ℚ) < k := by
        rw [hk]
        exact_mod_cast hkpos
      have key : k * ((k + 1) * (a * a + T) - (a + s) * (a + s)) =
          (k * a - s) * (k * a - s) + (k + 1) * (k * T - s * s) := by ring
      have h2 : 0 ≤ k * T - s * s := by linarith [ih]
      have h3 : 0 ≤ k * ((k + 1) * (a * a + T) - (a + s) * (a + s)) := by
        rw [key]
        have := mul_nonneg (by linarith : (0 : ℚ) ≤ k + 1) h2
        have := mul_self_nonneg (k * a - s)
        linarith
      have h4 : 0 ≤ (k + 1) * (a * a + T) - (a + s) * (a + s) :=
        nonneg_of_mul_nonneg_right h3 hkq
      linarith

lemma clamp_bounds (x L U : ℚ) (h : L ≤ U) :
    L ≤ clamp x L U ∧ clamp x L U ≤ U := by
  unfold clamp
  split_ifs with h1 h2
  · exact ⟨le_refl L, h⟩
  · exact ⟨h, le_refl U⟩
  · constructor <;> linarith

set_option maxRecDepth 2000

/-! ### Claim theorems -/

/-- C3: `computeLineChartAnalysis` on the empty series returns mean 0,
standardDeviation 0, coefficientOfVariation null, slope 0, rSquared null,
volatility undefined and trend undefined, and any all-missing series gives
the identical result. -/
theorem C3_empty_and_all_missing (sqrtFn : ℚ → ℚ) (values : List (Option ℚ))
    (h : ∀ v ∈ values, v = Option.none) :
    computeLineChartAnalysis sqrtFn [] =
      { mean := 0
        standardDeviation := 0
        coefficientOfVariation := Option.none
        slope := 0
        rSquared := Option.none
        interpretation :=
          { volatility := Volatility.undefined, trend := Trend.undefined } }
    ∧ computeLineChartAnalysis sqrtFn values = computeLineChartAnalysis sqrtFn [] := by
  have hnil : indexedValues values = [] := indexedValues_eq_nil_of_all_none values h
  have hn : nValid values = 0 := by rw [nValid, hnil]; rfl
  constructor
  · rfl
  · unfold computeLineChartAnalysis
    rw [hn]
    rfl

/-- Witness for C3 at the concrete all-missing series `[null, null]`. -/
theorem C3_witness :
    computeLineChartAnalysis id [Option.none, Option.none] =
      computeLineChartAnalysis id [] :=
  (C3_empty_and_all_missing id [Option.none, Option.none] (by decide)).2

/-- C4: the `quantile` contract: 0 on the empty sequence; the first element
for q ≤ 0 and the last for q ≥ 1 on non-empty input; the sole element of a
singleton for every q; otherwise linear interpolation between the closest
ranks of position (n−1)·q. -/
theorem C4_quantile_contract (q a : ℚ) (l : List ℚ) :
    quantile [] q = 0
    ∧ (q ≤ 0 → quantile (a :: l) q = a)
    ∧ (1 ≤ q → quantile (a :: l) q = (a :: l).getLast (List.cons_ne_nil a l))
    ∧ quantile [a] q = a
    ∧ (0 < q → q < 1 →
        quantile (a :: l) q =
          (a :: l).getD (⌊(((a :: l).length : ℚ) - 1) * q⌋).toNat 0
          + ((a :: l).getD (⌈(((a :: l).length : ℚ) - 1) * q⌉).toNat 0
             - (a :: l).getD (⌊(((a :: l).length : ℚ) - 1) * q⌋).toNat 0)
            * ((((a :: l).length : ℚ) - 1) * q
               - (⌊(((a :: l).length : ℚ) - 1) * q⌋ : ℚ))) := by
  refine ⟨rfl, ?_, ?_, ?_, ?_⟩
  · intro hq
    simp [quantile, hq]
  · intro hq
    have hq0 : ¬ q ≤ 0 := by linarith
    simp [quantile, hq0, hq, List.getLast?_eq_getLast (a :: l) (List.cons_ne_nil a l)]
  · by_cases h0 : q ≤ 0
    · simp [quantile, h0]
    · by_cases h1 : 1 ≤ q
      · simp [quantile, h0, h1, List.getLast?_eq_getLast]
      · simp [quantile, h0, h1]
  · intro hq0 hq1
    have h0 : ¬ q ≤ 0 := by linarith
    have h1 : ¬ 1 ≤ q := by linarith
    simp [quantile, h0, h1]

/-- Witness for C4 at concrete inputs: empty list, endpoints, a singleton
and an interior quantile. -/
theorem C4_witness :
    quantile [] (1/2 : ℚ) = 0
    ∧ quantile [(1 : ℚ), 2] 0 = 1
    ∧ quantile [(1 : ℚ), 2] 1 = 2
    ∧ quantile [(7 : ℚ)] (1/3) = 7 := by
  refine ⟨(C4_quantile_contract (1/2) 0 []).1,
    (C4_quantile_contract 0 1 [2]).2.1 (by norm_num), ?_,
    (C4_quantile_contract (1/3) 7 []).2.2.2.1⟩
  have h := (C4_quantile_contract 1 1 [2]).2.2.1 (by norm_num)
  simpa using h

/-- C5: `winsorize` preserves length and order, maps each element through a
clamp into the two quantile bounds of the sorted copy, and (when the lower
bound is at most the upper bound) every output lies within the bounds. -/
theorem C5_winsorize_contract (v : List ℚ) (lq uq : ℚ) :
    (winsorize v lq uq).length = v.length
    ∧ (∀ i, i < v.length →
        (winsorize v lq uq).getD i 0 =
          clamp (v.getD i 0)
            (quantile (v.insertionSort (fun a b => a ≤ b)) lq)
            (quantile (v.insertionSort (fun a b => a ≤ b)) uq))
    ∧ (quantile (v.insertionSort (fun a b => a ≤ b)) lq ≤
         quantile (v.insertionSort (fun a b => a ≤ b)) uq →
       ∀ y ∈ winsorize v lq uq,
         quantile (v.insertionSort (fun a b => a ≤ b)) lq ≤ y ∧
         y ≤ quantile (v.insertionSort (fun a b => a ≤ b)) uq) := by
  refine ⟨length_winsorize v lq uq, ?_, ?_⟩
  · intro i hi
    have hi2 : i < (winsorize v lq uq).length := by
      rw [length_winsorize]
      exact hi
    rw [List.getD_eq_getElem _ _ hi2, List.getD_eq_getElem _ _ hi]
    simp [winsorize]
  · intro hLU y hy
    have hy2 : y ∈ v.map (fun x =>
        clamp x (quantile (v.insertionSort (fun a b => a ≤ b)) lq)
          (quantile (v.insertionSort (fun a b => a ≤ b)) uq)) := by
      simpa [winsorize] using hy
    rcases List.mem_map.mp hy2 with ⟨x, _, rfl⟩
    exact clamp_bounds x _ _ hLU

/-- Witness for C5 at a concrete list and bounds. -/
theorem C5_witness :
    (winsorize [(3 : ℚ), 1, 2] 0 1).length = 3
    ∧ (quantile ([(3 : ℚ), 1, 2].insertionSort (fun a b => a ≤ b)) 0 ≤
        quantile ([(3 : ℚ), 1, 2].insertionSort (fun a b => a ≤ b)) 1) := by
  exact ⟨(C5_winsorize_contract [(3 : ℚ), 1, 2] 0 1).1, by with_unfolding_all decide⟩

/-- C1 counterexample: the single-element series `[5]` has nonzero mean but
`coefficientOfVariation` is still null, because the n = 1 early return
hard-codes a null coefficient. -/
theorem C1_counterexample :
    (computeLineChartAnalysis id [Option.some 5]).mean ≠ 0
    ∧ (computeLineChartAnalysis id [Option.some 5]).coefficientOfVariation =
        Option.none := by
  decide

/-- C1 amended: for at most one valid observation the coefficient of
variation is always null; for at least two valid observations it is null
exactly when the mean is 0 and otherwise equals standardDeviation / mean. -/
theorem C1_amended (sqrtFn : ℚ → ℚ) (values : List (Option ℚ)) :
    (nValid values ≤ 1 →
      (computeLineChartAnalysis sqrtFn values).coefficientOfVariation = Option.none)
    ∧ (2 ≤ nValid values →
        (((computeLineChartAnalysis sqrtFn values).coefficientOfVariation = Option.none ↔
            (computeLineChartAnalysis sqrtFn values).mean = 0)
         ∧ ((computeLineChartAnalysis sqrtFn values).mean ≠ 0 →
             (computeLineChartAnalysis sqrtFn values).coefficientOfVariation =
               Option.some ((computeLineChartAnalysis sqrtFn values).standardDeviation /
                 (computeLineChartAnalysis sqrtFn values).mean)))) := by
  constructor
  · intro h
    unfold computeLineChartAnalysis
    rcases Nat.le_one_iff_eq_zero_or_eq_one.mp h with h0 | h1
    · rw [if_pos h0]
    · rw [if_neg (by omega), if_pos h1]
  · intro hn
    rw [analysis_eq_of_two_le sqrtFn values hn]
    constructor
    · unfold coefficientOfVariationValue
      split_ifs with h <;> simp [h]
    · intro hm
      simp only at hm
      unfold coefficientOfVariationValue
      rw [if_neg hm]

/-- Witness for C1 amended at the two-element series `[1, 2]`. -/
theorem C1_witness :
    (computeLineChartAnalysis id [Option.some 1, Option.some 2]).mean ≠ 0
    ∧ (computeLineChartAnalysis id [Option.some 1, Option.some 2]).coefficientOfVariation =
        Option.some ((computeLineChartAnalysis id [Option.some 1, Option.some 2]).standardDeviation /
          (computeLineChartAnalysis id [Option.some 1, Option.some 2]).mean) :=
  ⟨by with_unfolding_all decide,
    ((C1_amended id [Option.some 1, Option.some 2]).2 (by with_unfolding_all decide)).2
      (by with_unfolding_all decide)⟩

/-- The series `[10, null, 30, null, 50]` used by C7. -/
def gapSeries : List (Option ℚ) :=
  [Option.some 10, Option.none, Option.some 30, Option.none, Option.some 50]

/-- C7: missing entries are filtered while keeping the original indices as
the regression x-axis, so `[10, null, 30, null, 50]` regresses the points
(0, 10), (2, 30), (4, 50) and yields slope 10 and rSquared 1. -/
theorem C7_gap_preserving :
    indexedValues gapSeries = [(10, 0), (30, 2), (50, 4)]
    ∧ regressionPoints gapSeries = [(0, 10), (2, 30), (4, 50)]
    ∧ (computeLineChartAnalysis id gapSeries).slope = 10
    ∧ (computeLineChartAnalysis id gapSeries).rSquared = Option.some 1 := by
  with_unfolding_all decide

/-- A 20-observation series: nineteen flat zeros plus a huge outlier. -/
def outlierSeries : List (Option ℚ) :=
  (List.replicate 19 (Option.some 0)) ++ [Option.some 100]

lemma outlier_regressionPoints :
    regressionPoints outlierSeries =
      [(0, 0), (1, 0), (2, 0), (3, 0), (4, 0), (5, 0), (6, 0), (7, 0), (8, 0),
       (9, 0), (10, 0), (11, 0), (12, 0), (13, 0), (14, 0), (15, 0), (16, 0),
       (17, 0), (18, 0), (19, 5)] := by
  with_unfolding_all decide

lemma outlier_nValid : nValid outlierSeries = 20 := by
  with_unfolding_all decide

lemma outlier_sumX : sumX outlierSeries = 190 := by
  simp only [sumX, outlier_regressionPoints, List.map_cons, List.map_nil,
    List.sum_cons, List.sum_nil]
  norm_num

lemma outlier_sumY : sumY outlierSeries = 5 := by
  simp only [sumY, outlier_regressionPoints, List.map_cons, List.map_nil,
    List.sum_cons, List.sum_nil]
  norm_num

lemma outlier_sumXY : sumXY outlierSeries = 95 := by
  simp only [sumXY, outlier_regressionPoints, List.map_cons, List.map_nil,
    List.sum_cons, List.sum_nil]
  norm_num

lemma outlier_sumXX : sumXX outlierSeries = 2470 := by
  simp only [sumXX, outlier_regressionPoints, List.map_cons, List.map_nil,
    List.sum_cons, List.sum_nil]
  norm_num

lemma outlier_denominator : regressionDenominator outlierSeries = 13300 := by
  simp only [regressionDenominator, outlier_nValid, outlier_sumX, outlier_sumXX]
  norm_num

lemma outlier_slope : slopeValue outlierSeries = 1/14 := by
  simp only [slopeValue, outlier_denominator, outlier_nValid, outlier_sumXY,
    outlier_sumX, outlier_sumY]
  norm_num

lemma outlier_meanY : meanYValue outlierSeries = 1/4 := by
  simp only [meanYValue, outlier_sumY, outlier_nValid]
  norm_num

lemma outlier_intercept : interceptValue outlierSeries = -3/7 := by
  simp only [interceptValue, outlier_sumY, outlier_slope, outlier_sumX, outlier_nValid]
  norm_num

lemma outlier_ssTotal : ssTotal outlierSeries = 95/4 := by
  simp only [ssTotal, outlier_regressionPoints, outlier_meanY, List.map_cons,
    List.map_nil, List.sum_cons, List.sum_nil]
  norm_num

lemma outlier_ssResidual : ssResidual outlierSeries = 285/14 := by
  simp only [ssResidual, outlier_regressionPoints, outlier_slope, outlier_intercept,
    List.map_cons, List.map_nil, List.sum_cons, List.sum_nil]
  norm_num

lemma outlier_rSquared : rSquaredValue outlierSeries = Option.some (1/7) := by
  rw [rSquaredValue, if_neg (by rw [outlier_denominator]; norm_num),
    if_neg (by rw [outlier_ssTotal]; norm_num), outlier_ssResidual, outlier_ssTotal]
  norm_num

/-- C6: the regression inputs are the 5th/95th-percentile winsorized values
exactly when the valid-observation count is at least 20 and the raw values
otherwise; a 4-point perfect linear fit yields rSquared 1, and a 20-point
series with a huge outlier still yields an rSquared inside [0, 1]
(here exactly 1/7). -/
theorem C6_winsorization_threshold (values : List (Option ℚ)) :
    (nValid values < 20 → winsorizedYValues values = originalYValues values)
    ∧ (20 ≤ nValid values →
        winsorizedYValues values = winsorize (originalYValues values) (1/20) (19/20))
    ∧ (computeLineChartAnalysis id
        [Option.some 1, Option.some 2, Option.some 3, Option.some 4]).rSquared =
        Option.some 1
    ∧ (computeLineChartAnalysis id outlierSeries).rSquared = Option.some (1/7)
    ∧ (0 : ℚ) ≤ 1/7
    ∧ (1/7 : ℚ) ≤ 1 := by
  refine ⟨?_, ?_, by with_unfolding_all decide, ?_, by norm_num, by norm_num⟩
  · intro h
    unfold winsorizedYValues
    rw [if_neg]
    rw [length_originalYValues]
    omega
  · intro h
    unfold winsorizedYValues
    rw [if_pos]
    rw [length_originalYValues]
    exact h
  · rw [analysis_eq_of_two_le id outlierSeries (by rw [outlier_nValid]; omega)]
    exact outlier_rSquared

/-- Witness for C6 at a small series (raw values kept) and at the 20-point
outlier series (winsorization active). -/
theorem C6_witness :
    winsorizedYValues [Option.some 1, Option.some 2] =
      originalYValues [Option.some 1, Option.some 2]
    ∧ winsorizedYValues outlierSeries =
        winsorize (originalYValues outlierSeries) (1/20) (19/20) :=
  ⟨(C6_winsorization_threshold [Option.some 1, Option.some 2]).1
      (by with_unfolding_all decide),
    (C6_winsorization_threshold outlierSeries).2.1 (by with_unfolding_all decide)⟩

/-- C8 counterexample: the empty series has standardDeviation 0 yet its
trend is undefined, not none, because the n = 0 early return bypasses the
classification. -/
theorem C8_counterexample :
    (computeLineChartAnalysis id []).standardDeviation = 0
    ∧ (computeLineChartAnalysis id []).interpretation.trend = Trend.undefined
    ∧ Trend.undefined ≠ Trend.none := by
  exact ⟨rfl, rfl, by decide⟩

/-- C8 amended: for every series with at least one valid observation the
trend classification follows the code: standardDeviation 0 gives none;
otherwise a null rSquared gives undefined; otherwise the base class from
rSquared (strong above 3/4, weak above 2/5, else none) is upgraded by
relativeSlope (none to weak at 3/100, weak to strong at 3/50), never from
none directly to strong and never downgraded. -/
theorem C8_amended (sqrtFn : ℚ → ℚ) (values : List (Option ℚ))
    (hn : 1 ≤ nValid values) :
    ((computeLineChartAnalysis sqrtFn values).standardDeviation = 0 →
      (computeLineChartAnalysis sqrtFn values).interpretation.trend = Trend.none)
    ∧ ((computeLineChartAnalysis sqrtFn values).standardDeviation ≠ 0 →
        (computeLineChartAnalysis sqrtFn values).rSquared = Option.none →
        (computeLineChartAnalysis sqrtFn values).interpretation.trend = Trend.undefined)
    ∧ (∀ ρ : ℚ,
        (computeLineChartAnalysis sqrtFn values).standardDeviation ≠ 0 →
        (computeLineChartAnalysis sqrtFn values).rSquared = Option.some ρ →
        ((3/4 < ρ →
            (computeLineChartAnalysis sqrtFn values).interpretation.trend = Trend.strong)
         ∧ (2/5 < ρ → ρ ≤ 3/4 →
             (computeLineChartAnalysis sqrtFn values).interpretation.trend =
               (if 3/50 ≤ relativeSlope values then Trend.strong else Trend.weak))
         ∧ (ρ ≤ 2/5 →
             (computeLineChartAnalysis sqrtFn values).interpretation.trend =
               (if 3/100 ≤ relativeSlope values then Trend.weak else Trend.none)))) := by
  rcases Nat.lt_or_ge (nValid values) 2 with h2 | h2
  · have h1 : nValid values = 1 := by omega
    have hr : computeLineChartAnalysis sqrtFn values =
        { mean := ((indexedValues values).headD (0, 0)).1
          standardDeviation := 0
          coefficientOfVariation := Option.none
          slope := 0
          rSquared := Option.none
          interpretation :=
            { volatility := Volatility.very_stable, trend := Trend.none } } := by
      unfold computeLineChartAnalysis
      rw [if_neg (by omega), if_pos h1]
    rw [hr]
    refine ⟨fun _ => rfl, fun h _ => absurd rfl h, fun ρ h _ => absurd rfl h⟩
  · rw [analysis_eq_of_two_le sqrtFn values h2]
    simp only
    refine ⟨?_, ?_, ?_⟩
    · intro h
      rw [trendOf, if_pos h]
    · intro hstd hrs
      rw [trendOf, if_neg hstd, hrs]
    · intro ρ hstd hrs
      rw [trendOf, if_neg hstd, hrs]
      refine ⟨?_, ?_, ?_⟩
      · intro h34
        simp only [if_pos h34]
      · intro h25 h34
        simp only [if_neg (by linarith : ¬ 3/4 < ρ), if_pos h25]
      · intro h25
        simp only [if_neg (by linarith : ¬ 3/4 < ρ), if_neg (by linarith : ¬ 2/5 < ρ)]

/-- Witness for C8 amended: a perfect two-point ramp is classified strong. -/
theorem C8_witness :
    (computeLineChartAnalysis id [Option.some 1, Option.some 2]).interpretation.trend =
      Trend.strong :=
  ((C8_amended id [Option.some 1, Option.some 2]
      (by with_unfolding_all decide)).2.2 1
    (by with_unfolding_all decide) (by with_unfolding_all decide)).1 (by norm_num)

/-- A 21-observation series (one -7, nineteen 3s, one 50) whose winsorized
values are all 3: the 5th and 95th percentile bounds coincide. -/
def flatOutlierSeries : List (Option ℚ) :=
  Option.some (-7) :: (List.replicate 19 (Option.some 3) ++ [Option.some 50])

lemma ssTotal_zero_all_meanY (values : List (Option ℚ)) (h0 : ssTotal values = 0) :
    ∀ y ∈ winsorizedYValues values, y = meanYValue values := by
  intro y hy
  have hz := eq_zero_of_sum_map_mul_self_zero (regressionPoints values)
    (fun p => p.2 - meanYValue values) h0
  rw [← map_snd_regressionPoints values] at hy
  rcases List.mem_map.mp hy with ⟨p, hp, rfl⟩
  have hzp : p.2 - meanYValue values = 0 := hz p hp
  linarith

lemma flat_nValid : nValid flatOutlierSeries = 21 := by
  with_unfolding_all decide

lemma flat_indexedValues :
    indexedValues flatOutlierSeries =
      [(-7, 0), (3, 1), (3, 2), (3, 3), (3, 4), (3, 5), (3, 6), (3, 7), (3, 8), (3, 9), (3, 10), (3, 11), (3, 12), (3, 13), (3, 14), (3, 15), (3, 16), (3, 17), (3, 18), (3, 19), (50, 20)] := by
  with_unfolding_all decide

lemma flat_regressionPoints :
    regressionPoints flatOutlierSeries =
      [(0, 3), (1, 3), (2, 3), (3, 3), (4, 3), (5, 3), (6, 3), (7, 3), (8, 3), (9, 3), (10, 3), (11, 3), (12, 3), (13, 3), (14, 3), (15, 3), (16, 3), (17, 3), (18, 3), (19, 3), (20, 3)] := by
  with_unfolding_all decide

lemma flat_sumValues : sumValues flatOutlierSeries = 100 := by
  simp only [sumValues, flat_indexedValues, List.map_cons, List.map_nil,
    List.sum_cons, List.sum_nil]
  norm_num

lemma flat_mean : meanValue flatOutlierSeries = 100/21 := by
  simp only [meanValue, flat_sumValues, flat_nValid]
  norm_num

lemma flat_varianceSum : varianceSum flatOutlierSeries = 47120/21 := by
  simp only [varianceSum, flat_indexedValues, flat_mean, List.map_cons, List.map_nil,
    List.sum_cons, List.sum_nil]
  norm_num

lemma flat_std : standardDeviation id flatOutlierSeries ≠ 0 := by
  simp only [standardDeviation, flat_varianceSum, flat_nValid, id]
  norm_num

lemma flat_sumX : sumX flatOutlierSeries = 210 := by
  simp only [sumX, flat_regressionPoints, List.map_cons, List.map_nil,
    List.sum_cons, List.sum_nil]
  norm_num

lemma flat_sumXX : sumXX flatOutlierSeries = 2870 := by
  simp only [sumXX, flat_regressionPoints, List.map_cons, List.map_nil,
    List.sum_cons, List.sum_nil]
  norm_num

lemma flat_sumY : sumY flatOutlierSeries = 63 := by
  simp only [sumY, flat_regressionPoints, List.map_cons, List.map_nil,
    List.sum_cons, List.sum_nil]
  norm_num

lemma flat_denominator : regressionDenominator flatOutlierSeries = 16170 := by
  simp only [regressionDenominator, flat_nValid, flat_sumX, flat_sumXX]
  norm_num

lemma flat_meanY : meanYValue flatOutlierSeries = 3 := by
  simp only [meanYValue, flat_sumY, flat_nValid]
  norm_num

lemma flat_ssTotal : ssTotal flatOutlierSeries = 0 := by
  simp only [ssTotal, flat_regressionPoints, flat_meanY, List.map_cons, List.map_nil,
    List.sum_cons, List.sum_nil]
  norm_num

lemma flat_rSquared : rSquaredValue flatOutlierSeries = Option.none := by
  rw [rSquaredValue, if_neg (by rw [flat_denominator]; norm_num), if_pos flat_ssTotal]

/-- C2 counterexample: a 21-point series with two extremes and a flat
middle has a nonzero regression denominator, a null rSquared (its winsorized
values are all equal, so ssTotal is 0), yet a nonzero standardDeviation —
refuting the claim that ssTotal is 0 only when standardDeviation is 0. -/
theorem C2_counterexample :
    2 ≤ nValid flatOutlierSeries
    ∧ (∀ x : ℚ, 0 ≤ x → (id x = 0 ↔ x = 0))
    ∧ (computeLineChartAnalysis id flatOutlierSeries).rSquared = Option.none
    ∧ regressionDenominator flatOutlierSeries ≠ 0
    ∧ ssTotal flatOutlierSeries = 0
    ∧ (computeLineChartAnalysis id flatOutlierSeries).standardDeviation ≠ 0 := by
  have h2 : 2 ≤ nValid flatOutlierSeries := by rw [flat_nValid]; omega
  refine ⟨h2, fun x hx => Iff.rfl, ?_, ?_, flat_ssTotal, ?_⟩
  · rw [analysis_eq_of_two_le id flatOutlierSeries h2]
    exact flat_rSquared
  · rw [flat_denominator]
    norm_num
  · rw [analysis_eq_of_two_le id flatOutlierSeries h2]
    exact flat_std

/-- C2 amended: for at least two valid observations, rSquared is null
exactly when the regression denominator is 0 or the total sum-of-squares
(about the winsorized mean) is 0; ssTotal 0 forces all winsorized y-values
equal; and below the winsorization threshold (n < 20) ssTotal 0 forces
standardDeviation = 0 (for a square root sending 0 to 0). -/
theorem C2_amended (sqrtFn : ℚ → ℚ) (values : List (Option ℚ))
    (hn : 2 ≤ nValid values) (hsqrt : sqrtFn 0 = 0) :
    ((computeLineChartAnalysis sqrtFn values).rSquared = Option.none ↔
      (regressionDenominator values = 0 ∨ ssTotal values = 0))
    ∧ (ssTotal values = 0 →
        ∀ y₁ ∈ winsorizedYValues values, ∀ y₂ ∈ winsorizedYValues values, y₁ = y₂)
    ∧ (nValid values < 20 → ssTotal values = 0 →
        (computeLineChartAnalysis sqrtFn values).standardDeviation = 0) := by
  refine ⟨?_, ?_, ?_⟩
  · rw [analysis_eq_of_two_le sqrtFn values hn]
    simp only
    unfold rSquaredValue
    split_ifs with h1 h2
    · simp [h1]
    · simp [h2]
    · simp [h1, h2]
  · intro h0 y₁ hy₁ y₂ hy₂
    rw [ssTotal_zero_all_meanY values h0 y₁ hy₁, ssTotal_zero_all_meanY values h0 y₂ hy₂]
  · intro h20 h0
    have hwin : winsorizedYValues values = originalYValues values := by
      unfold winsorizedYValues
      rw [if_neg]
      rw [length_originalYValues]
      omega
    have hall : ∀ y ∈ originalYValues values, y = meanYValue values := by
      rw [← hwin]
      exact ssTotal_zero_all_meanY values h0
    have hn0 : (nValid values : ℚ) ≠ 0 := by
      have : (0 : ℚ) < (nValid values : ℚ) := by exact_mod_cast Nat.lt_of_lt_of_le Nat.zero_lt_two hn
      linarith
    have hsum : (originalYValues values).sum = (nValid values : ℚ) * meanYValue values := by
      rw [List.sum_eq_card_nsmul _ _ hall, length_originalYValues]
      simp [nsmul_eq_mul]
    have hmean : meanValue values = meanYValue values := by
      have hs : sumValues values = (originalYValues values).sum := rfl
      rw [meanValue, hs, hsum]
      field_simp
    have hvar : varianceSum values = 0 := by
      rw [varianceSum]
      apply List.sum_eq_zero
      intro x hx
      rcases List.mem_map.mp hx with ⟨e, he, rfl⟩
      have hy : e.1 ∈ originalYValues values := List.mem_map_of_mem Prod.fst he
      rw [hall e.1 hy, ← hmean]
      simp
    rw [analysis_eq_of_two_le sqrtFn values hn]
    simp only
    rw [standardDeviation, hvar, zero_div, hsqrt]

/-- Witness for C2 amended at the flat two-point series `[1, 1]`. -/
theorem C2_witness :
    (computeLineChartAnalysis id [Option.some 1, Option.some 1]).rSquared = Option.none
    ∧ (computeLineChartAnalysis id [Option.some 1, Option.some 1]).standardDeviation = 0 := by
  refine ⟨?_, (C2_amended id [Option.some 1, Option.some 1]
      (by with_unfolding_all decide) rfl).2.2
      (by with_unfolding_all decide) (by with_unfolding_all decide)⟩
  exact (C2_amended id [Option.some 1, Option.some 1]
      (by with_unfolding_all decide) rfl).1.mpr
    (Or.inr (by with_unfolding_all decide))

/-- The denominator of every division `computeLineChartAnalysis` performs, in
source order, recorded exactly when the corresponding guard lets the division
run: mean and variance divide by n (router.ts lines 262, 269, only reached
when n ≥ 2), coefficientOfVariation by the mean (line 271, guarded by the
mean-zero check), slope by the regression denominator (line 311, guarded),
meanY and intercept by n (lines 316-317, inside the denominator guard),
rSquared by ssTotal (line 335, guarded), and relativeSlope by robustMeanY
(line 351, guarded). -/
def divisionDenominators (values : List (Option ℚ)) : List ℚ :=
  if nValid values ≤ 1 then []
  else
    [(nValid values : ℚ), (nValid values : ℚ)]
    ++ (if meanValue values = 0 then [] else [meanValue values])
    ++ (if regressionDenominator values = 0 then [] else [regressionDenominator values])
    ++ (if regressionDenominator values = 0 then []
        else [(nValid values : ℚ), (nValid values : ℚ)]
          ++ (if ssTotal values = 0 then [] else [ssTotal values]))
    ++ (if robustMeanY values = 0 then [] else [robustMeanY values])

/-- C9: every division the analysis performs has a nonzero denominator —
each division site is protected by an explicit zero-check (either the n ≥ 2
branch condition or a dedicated equality test). -/
theorem C9_guarded_divisions (values : List (Option ℚ)) (d : ℚ)
    (hd : d ∈ divisionDenominators values) : d ≠ 0 := by
  intro heq
  subst heq
  unfold divisionDenominators at hd
  by_cases h1 : nValid values ≤ 1
  · rw [if_pos h1] at hd
    exact absurd hd (List.not_mem_nil 0)
  · rw [if_neg h1] at hd
    have hn : (nValid values : ℚ) ≠ 0 := by
      exact_mod_cast Nat.pos_iff_ne_zero.mp (by omega)
    split_ifs at hd <;>
      simp_all [List.mem_append, List.mem_cons, List.mem_singleton, eq_comm]

/-- Witness for C9: the mean of `[1, 2]` is one of the recorded denominators
and is therefore nonzero. -/
theorem C9_witness : meanValue [Option.some 1, Option.some 2] ≠ 0 :=
  C9_guarded_divisions [Option.some 1, Option.some 2]
    (meanValue [Option.some 1, Option.some 2]) (by with_unfolding_all decide)

lemma regressionDenominator_nonneg (values : List (Option ℚ)) :
    0 ≤ regressionDenominator values := by
  have h := sq_sum_le_length_mul_sum_sq ((regressionPoints values).map Prod.fst)
  rw [List.length_map, length_regressionPoints] at h
  have hc : ((regressionPoints values).map Prod.fst).map (fun x => x * x) =
      (regressionPoints values).map (fun p => p.1 * p.1) := by
    rw [List.map_map]
    rfl
  rw [hc] at h
  simp only [regressionDenominator, sumX, sumXX]
  linarith

lemma ssTotal_sub_ssResidual (values : List (Option ℚ)) (hn : 2 ≤ nValid values)
    (hD : regressionDenominator values ≠ 0) :
    ssTotal values - ssResidual values =
      ((nValid values : ℚ) * sumXY values - sumX values * sumY values) ^ 2 /
        ((nValid values : ℚ) * regressionDenominator values) := by
  have hn0 : (nValid values : ℚ) ≠ 0 := by
    exact_mod_cast Nat.pos_iff_ne_zero.mp (by omega)
  have hlen : ((regressionPoints values).length : ℚ) = (nValid values : ℚ) := by
    exact_mod_cast congrArg Nat.cast (length_regressionPoints values)
  have hT := sum_affine_expand (regressionPoints values) 0 (meanYValue values)
  simp only [zero_mul, zero_add, mul_zero, add_zero, sub_zero] at hT
  have hR := sum_affine_expand (regressionPoints values) (slopeValue values)
    (interceptValue values)
  rw [hlen] at hT hR
  have hTs : ssTotal values =
      ((regressionPoints values).map (fun q => q.2 * q.2)).sum
      + (nValid values : ℚ) * (meanYValue values * meanYValue values)
      - 2 * meanYValue values * sumY values := by
    rw [ssTotal, sumY]
    rw [hT]
  have hRs : ssResidual values =
      ((regressionPoints values).map (fun q => q.2 * q.2)).sum
      + slopeValue values * slopeValue values * sumXX values
      + (nValid values : ℚ) * (interceptValue values * interceptValue values)
      - 2 * slopeValue values * sumXY values
      - 2 * interceptValue values * sumY values
      + 2 * (slopeValue values * interceptValue values) * sumX values := by
    rw [ssResidual, sumXX, sumXY, sumY, sumX]
    rw [hR]
  rw [hTs, hRs, meanYValue, interceptValue, slopeValue, if_neg hD]
  rw [regressionDenominator] at hD ⊢
  field_simp
  ring

/-- C10: whenever the analysis returns a non-null rSquared, that value lies
in [0, 1]: the fitted slope and intercept are the least-squares minimizers,
so the residual sum-of-squares never exceeds the total sum-of-squares. -/
theorem C10_rSquared_in_unit_interval (sqrtFn : ℚ → ℚ) (values : List (Option ℚ))
    (ρ : ℚ) (h : (computeLineChartAnalysis sqrtFn values).rSquared = Option.some ρ) :
    0 ≤ ρ ∧ ρ ≤ 1 := by
  rcases Nat.lt_or_ge (nValid values) 2 with h2 | h2
  · exfalso
    rcases (by omega : nValid values = 0 ∨ nValid values = 1) with h0 | h1
    · unfold computeLineChartAnalysis at h
      rw [if_pos h0] at h
      exact Option.noConfusion h
    · unfold computeLineChartAnalysis at h
      rw [if_neg (by omega), if_pos h1] at h
      exact Option.noConfusion h
  · rw [analysis_eq_of_two_le sqrtFn values h2] at h
    simp only at h
    rw [rSquaredValue] at h
    split_ifs at h with hD hT
    · have hρ : ρ = 1 - ssResidual values / ssTotal values :=
        (Option.some.inj h).symm
      have h0R : 0 ≤ ssResidual values := by
        rw [ssResidual]
        exact sum_map_mul_self_nonneg _ _
      have h0T : 0 ≤ ssTotal values := by
        rw [ssTotal]
        exact sum_map_mul_self_nonneg _ _
      have hTpos : 0 < ssTotal values := lt_of_le_of_ne h0T (Ne.symm hT)
      have hDpos : 0 < regressionDenominator values :=
        lt_of_le_of_ne (regressionDenominator_nonneg values) (Ne.symm hD)
      have hnpos : (0 : ℚ) < (nValid values : ℚ) := by
        exact_mod_cast (by omega : 0 < nValid values)
      have hkey := ssTotal_sub_ssResidual values h2 hD
      have hdiff : 0 ≤ ssTotal values - ssResidual values := by
        rw [hkey]
        positivity
      constructor
      · rw [hρ]
        have hle : ssResidual values / ssTotal values ≤ 1 := by
          rw [div_le_one hTpos]
          linarith
        linarith
      · rw [hρ]
        have hge : 0 ≤ ssResidual values / ssTotal values := div_nonneg h0R h0T
        linarith

/-- Witness for C10 at the 20-point outlier series, whose rSquared is 1/7. -/
theorem C10_witness : 0 ≤ (1/7 : ℚ) ∧ (1/7 : ℚ) ≤ 1 :=
  C10_rSquared_in_unit_interval id outlierSeries (1/7)
    (by
      rw [analysis_eq_of_two_le id outlierSeries (by rw [outlier_nValid]; omega)]
      exact outlier_rSquared)

end Router
